import Mathlib

set_option maxRecDepth 8000

/- Shallow embedding of the quantum-circuit compiler and peephole optimizer
   of qosf_task3.py.

   An instruction is one entry of a qiskit circuit data list: a gate,
   carried here by its name string and its real parameter list, together
   with the list of target qubit indices.  Python floats are modelled as
   exact rationals; the literal IEEE-754 double value of 2*math.pi used by
   the source is the rational constant below.  A Python runtime error
   (IndexError from list indexing or popping, ValueError from int()) is
   modelled by returning none. -/

/-- The exact rational value of the IEEE-754 double 2*math.pi
    (math.pi = 884279719003555 / 2^48). -/
def twoPI : ℚ := 884279719003555 / 140737488355328

/-- Python round(x, 2) modelled on rationals: the nearest multiple of
    1/100, computed as floor(x*100 + 1/2) / 100 with integer floor
    division.  (Python rounds the nearest-double of x half-to-even; the
    two agree at every comparison this development evaluates, none of
    which is a tie.) -/
def roundTo2 (x : ℚ) : ℚ :=
  Rat.divInt
    ((2 * (x * 100).num + ((x * 100).den : ℤ)).fdiv (2 * ((x * 100).den : ℤ))) 100

/-- One applied gate: the gate name, its parameter list (angles), and the
    qubit indices it is applied to. -/
structure Instruction where
  name : String
  params : List ℚ
  targets : List Nat
deriving DecidableEq, Repr

/-- Python list indexing: a nonnegative index addresses from the front, a
    negative index wraps from the back, anything else raises IndexError. -/
def pyIdx (n : Nat) (i : Int) : Option Nat :=
  if 0 ≤ i then
    if i < (n : Int) then some i.toNat else none
  else
    if 0 ≤ i + (n : Int) then some (i + (n : Int)).toNat else none

/-- Python l[i]. -/
def pyGet (l : List α) (i : Int) : Option α :=
  (pyIdx l.length i).bind (fun k => l[k]?)

/-- Python l.pop(i) (the returned element is discarded by every caller). -/
def pyPop (l : List α) (i : Int) : Option (List α) :=
  (pyIdx l.length i).map (fun k => l.eraseIdx k)

/-- Python l[i] = a. -/
def pySet (l : List α) (i : Int) (a : α) : Option (List α) :=
  (pyIdx l.length i).map (fun k => l.set k a)

/-- Python l[-1]. -/
def pyLast (l : List α) : Option α := l.getLast?

/-- Python l.pop() with the element discarded. -/
def pyPopLast (l : List α) : Option (List α) :=
  match l with
  | [] => none
  | _ :: _ => some l.dropLast

def digitsToNat : List Char → Nat → Option Nat
  | [], acc => some acc
  | c :: cs, acc =>
      if c.isDigit then digitsToNat cs (acc * 10 + (c.toNat - 48)) else none

/-- Python int(s) on the strings this program builds (an optional sign
    followed by decimal digits); anything else raises ValueError. -/
def parseIdx (s : String) : Option Int :=
  match s.data with
  | [] => none
  | '-' :: [] => none
  | '-' :: cs => (digitsToNat cs 0).map (fun n => -(n : Int))
  | '+' :: [] => none
  | '+' :: cs => (digitsToNat cs 0).map (fun n => (n : Int))
  | cs => (digitsToNat cs 0).map (fun n => (n : Int))

/-- Python s[:2]. -/
def strTake2 (s : String) : String := ⟨s.data.take 2⟩

/-- Python s[2:]. -/
def strDrop2 (s : String) : String := ⟨s.data.drop 2⟩

/-- The wire-history tag pushed by removeDoubleCZ: gate name concatenated
    with str(i) for the current scan index i. -/
def pushTag (name : String) (i : Int) : String := name ++ toString i

/-- The while loop of removeZeroRotations.  In the source i is decremented
    and n is decremented after each pop and i is incremented at the bottom,
    so on deletion the net state is the same i over the shrunk list; i never
    becomes negative and n always equals len(data). -/
def rzrLoop (data : List Instruction) (i : Nat) : List Instruction :=
  if h : i < data.length then
    if (data.get ⟨i, h⟩).params = [0] ∨ (data.get ⟨i, h⟩).params = [twoPI] then
      rzrLoop (data.eraseIdx i) i
    else
      rzrLoop data (i + 1)
  else data
termination_by data.length - i
decreasing_by
  · simp only [List.length_eraseIdx, h, if_pos]
    omega
  · omega

/-- removeZeroRotations from the source: pops every instruction whose
    params list equals [0.0] or [2*PI]. -/
def removeZeroRotations (data : List Instruction) : List Instruction :=
  rzrLoop data 0

theorem pyIdx_bounds {n : Nat} {i : Int} {k : Nat} (h : pyIdx n i = some k) :
    k < n ∧ -(n : Int) ≤ i ∧ i < n := by
  unfold pyIdx at h
  split_ifs at h with h1 h2 h3 <;> (injection h with h4) <;> omega

theorem pyGet_bounds {l : List α} {i : Int} {a : α} (h : pyGet l i = some a) :
    -(l.length : Int) ≤ i ∧ i < l.length := by
  unfold pyGet at h
  cases hp : pyIdx l.length i with
  | none => rw [hp] at h; simp at h
  | some k => exact (pyIdx_bounds hp).2

theorem pyPop_length {l : List α} {i : Int} {l2 : List α} (h : pyPop l i = some l2) :
    l2.length + 1 = l.length := by
  unfold pyPop at h
  cases hp : pyIdx l.length i with
  | none => rw [hp] at h; simp at h
  | some k =>
    rw [hp] at h
    injection h with h2
    have hk := (pyIdx_bounds hp).1
    rw [← h2, List.length_eraseIdx, if_pos hk]
    omega

theorem pySet_length {l : List α} {i : Int} {a : α} {l2 : List α}
    (h : pySet l i a = some l2) : l2.length = l.length := by
  unfold pySet at h
  cases hp : pyIdx l.length i with
  | none => rw [hp] at h; simp at h
  | some k =>
    rw [hp] at h
    injection h with h2
    rw [← h2, List.length_set]

theorem pyGet_ofNat (l : List α) (k : Nat) : pyGet l (k : Int) = l[k]? := by
  unfold pyGet pyIdx
  rw [if_pos (Int.ofNat_nonneg k)]
  split_ifs with h2
  · simp
  · have hlen : l.length ≤ k := by omega
    simp [List.getElem?_eq_none hlen]

/-- The push of a cz tag onto both target wires (the else branch of the
    cancellation test in removeDoubleCZ): appends name+str(i) first to
    wires[qubit1] and then to wires[qubit2]. -/
def pushCZ (wires : List (List String)) (q1 q2 : Nat) (i : Int) :
    Option (List (List String)) :=
  match wires[q1]? with
  | none => none
  | some w1 =>
    let wiresA := wires.set q1 (w1 ++ [pushTag ("cz") i])
    match wiresA[q2]? with
    | none => none
    | some w2 => some (wiresA.set q2 (w2 ++ [pushTag ("cz") i]))

/-- The while loop of removeDoubleCZ.  The scan index i is a Python int:
    the source rewinds it by two after a cancellation, so it can in
    principle go negative, where Python list indexing wraps from the back.
    The and-condition of the cancellation test short-circuits, so the top
    of wires[qubit2] is only inspected when the top of wires[qubit1] is a
    cz tag. -/
def rdczLoop (data : List Instruction) (wires : List (List String)) (i : Int) :
    Option (List Instruction × List (List String)) :=
  if hcnd : i < (data.length : Int) then
    match hg : pyGet data i with
    | none => none
    | some ins =>
      if ins.name = "cz" then
        match ins.targets[0]?, ins.targets[1]? with
        | some q1, some q2 =>
          match wires[q1]? with
          | none => none
          | some w1 =>
            match pyLast w1 with
            | none => none
            | some t1 =>
              if strTake2 t1 = "cz" then
                match wires[q2]? with
                | none => none
                | some w2 =>
                  match pyLast w2 with
                  | none => none
                  | some t2 =>
                    if strTake2 t2 = "cz" then
                      match hp1 : pyPop data i with
                      | none => none
                      | some data1 =>
                        match parseIdx (strDrop2 t1) with
                        | none => none
                        | some m =>
                          match hp2 : pyPop data1 m with
                          | none => none
                          | some data2 =>
                            match pyPopLast w1 with
                            | none => none
                            | some w1p =>
                              match (wires.set q1 w1p)[q2]? with
                              | none => none
                              | some w2a =>
                                match pyPopLast w2a with
                                | none => none
                                | some w2p =>
                                  rdczLoop data2
                                    ((wires.set q1 w1p).set q2 w2p) (i - 1)
                    else
                      match pushCZ wires q1 q2 i with
                      | none => none
                      | some wires2 => rdczLoop data wires2 (i + 1)
              else
                match pushCZ wires q1 q2 i with
                | none => none
                | some wires2 => rdczLoop data wires2 (i + 1)
        | _, _ => none
      else
        match ins.targets[0]? with
        | none => none
        | some q =>
          match wires[q]? with
          | none => none
          | some w =>
            rdczLoop data (wires.set q (w ++ [pushTag ins.name i])) (i + 1)
  else some (data, wires)
termination_by (4 * (data.length : Int) - i).toNat
decreasing_by
  · have hb := pyGet_bounds hg
    have hl1 := pyPop_length hp1
    have hl2 := pyPop_length hp2
    omega
  · have hb := pyGet_bounds hg
    omega
  · have hb := pyGet_bounds hg
    omega
  · have hb := pyGet_bounds hg
    omega

/-- removeDoubleCZ from the source.  One stack per wire, initialized to
    [""], is threaded through the scan; returns the circuit data and the
    wire stacks. -/
def removeDoubleCZ (numQubits : Nat) (data : List Instruction) :
    Option (List Instruction × List (List String)) :=
  rdczLoop data (List.replicate numQubits [""]) 0

/-- The inner while loop of combineRotations for one wire stack wj.  The
    scan index i is a Python int (the source rewinds it below zero in the
    2*PI branch, where Python indexing wraps from the back).  In the
    source, n always equals len(wires[j]); after the first del, i has been
    decremented, so the 2*PI branch deletes at position i+1 relative to
    the shrunk stack, which is the original i.  Returns the circuit data,
    the remaining wire stack, and the accumulated indicesToPop. -/
def crWireLoop (data : List Instruction) (wj : List String) (ind : List Int) (i : Int) :
    Option (List Instruction × List String × List Int) :=
  if hcnd : i < (wj.length : Int) - 1 then
    match hg1 : pyGet wj i with
    | none => none
    | some e1 =>
      match pyGet wj (i + 1) with
      | none => none
      | some e2 =>
        if strTake2 e1 = strTake2 e2 then
          match parseIdx (strDrop2 e1), parseIdx (strDrop2 e2) with
          | some k1, some k2 =>
            match pyGet data k1, pyGet data k2 with
            | some ins1, some ins2 =>
              match ins1.params[0]?, ins2.params[0]? with
              | some a1, some a2 =>
                match pySet data k2
                    { ins2 with params := ins2.params.set 0 (a1 + a2) } with
                | none => none
                | some dataS =>
                  match hp1 : pyPop wj i with
                  | none => none
                  | some wj1 =>
                    if roundTo2 (a1 + a2) = roundTo2 twoPI then
                      match hp2 : pyPop wj1 i with
                      | none => none
                      | some wj2 =>
                        crWireLoop dataS wj2 (ind ++ [k1] ++ [k2]) (i - 2)
                    else
                      crWireLoop dataS wj1 (ind ++ [k1]) i
              | _, _ => none
            | _, _ => none
          | _, _ => none
        else
          crWireLoop data wj ind (i + 1)
  else some (data, wj, ind)
termination_by (4 * (wj.length : Int) - i).toNat
decreasing_by
  · have hb := pyGet_bounds hg1
    have hl1 := pyPop_length hp1
    have hl2 := pyPop_length hp2
    omega
  · have hb := pyGet_bounds hg1
    have hl1 := pyPop_length hp1
    omega
  · have hb := pyGet_bounds hg1
    omega

/-- The outer for loop of combineRotations over the wire stacks, threading
    the circuit data and indicesToPop. -/
def crWires : List Instruction → List (List String) → List Int →
    Option (List Instruction × List Int)
  | data, [], ind => some (data, ind)
  | data, wj :: rest, ind =>
    match crWireLoop data wj ind 0 with
    | none => none
    | some (d2, _, ind2) => crWires d2 rest ind2

/-- Insertion into a non-increasing list. -/
def insertDesc (x : Int) : List Int → List Int
  | [] => [x]
  | y :: ys => if y < x then x :: y :: ys else y :: insertDesc x ys

/-- Python sorted(l, reverse=True): the non-increasing arrangement of l,
    unique as a sorted multiset, so any correct sort produces it. -/
def sortDesc (l : List Int) : List Int := l.foldr insertDesc []

/-- The final list comprehension of combineRotations: pop each collected
    index in turn. -/
def popMany : List Instruction → List Int → Option (List Instruction)
  | data, [] => some data
  | data, k :: ks =>
    match pyPop data k with
    | none => none
    | some d2 => popMany d2 ks

/-- combineRotations from the source. -/
def combineRotations (data : List Instruction) (wires : List (List String)) :
    Option (List Instruction) :=
  match crWires data wires [] with
  | none => none
  | some (d2, ind) => popMany d2 (sortDesc ind)

/-- simplify from the source: the optimizer driver, running the three
    passes in order and threading the wire stacks from the second pass
    into the third. -/
def simplify (numQubits : Nat) (data : List Instruction) :
    Option (List Instruction) :=
  match removeDoubleCZ numQubits (removeZeroRotations data) with
  | none => none
  | some (d2, wires) => combineRotations d2 wires

/-- One entry of the input circuit data list handed to compiler: a gate
    (its payload abstracted to its name string) and its qubit indices. -/
structure QItem where
  gate : String
  qubits : List Nat
deriving DecidableEq, Repr

/-- The body of the for loop of compiler for one input gate.  d1 and d2
    are the external unitary decomposers (OneQubitEulerDecomposer and
    TwoQubitBasisDecomposer, out of scope here): d1 returns the gates of
    the single-qubit decomposition, d2 returns gates together with the
    local qubit slots each one targets. -/
def compilerStep (d1 : String → List String) (d2 : String → List (String × List Nat))
    (acc : List QItem) (item : QItem) : Option (List QItem) :=
  let positions := item.qubits
  if item.qubits.length = 1 then
    some (acc ++ (d1 item.gate).map (fun g => ⟨g, positions⟩))
  else if item.qubits.length = 2 then
    (d2 item.gate).foldlM
      (fun a gi =>
        if gi.2.length = 2 then some (a ++ [⟨gi.1, positions⟩])
        else
          match gi.2[0]? with
          | none => none
          | some loc =>
            match positions[loc]? with
            | none => none
            | some p => some (a ++ [⟨gi.1, [p]⟩]))
      acc
  else
    some acc

/-- compiler from the source: the arity dispatch is an if/elif with no
    else branch. -/
def compiler (d1 : String → List String) (d2 : String → List (String × List Nat))
    (data : List QItem) : Option (List QItem) :=
  data.foldlM (compilerStep d1 d2) []

/- Step equations for the two scan loops, used both for symbolic runs and
   to evaluate concrete circuits (the loops are defined by well-founded
   recursion, so they do not reduce definitionally). -/

theorem rdczLoop_exit {data : List Instruction} {wires : List (List String)} {i : Int}
    (h : (data.length : Int) ≤ i) :
    rdczLoop data wires i = some (data, wires) := by
  rw [rdczLoop.eq_def, dif_neg (by omega)]

theorem rdczLoop_push {data : List Instruction} {wires : List (List String)} {i : Int}
    {ins : Instruction} {q : Nat} {w : List String} {wires2 : List (List String)}
    (hcnd : i < (data.length : Int))
    (hg : pyGet data i = some ins)
    (hn : ¬ ins.name = "cz")
    (hq : ins.targets[0]? = some q)
    (hw : wires[q]? = some w)
    (hw2 : wires.set q (w ++ [pushTag ins.name i]) = wires2) :
    rdczLoop data wires i = rdczLoop data wires2 (i + 1) := by
  rw [rdczLoop.eq_def, dif_pos hcnd]
  split
  · next heq => rw [hg] at heq; exact absurd heq (by simp)
  · next ins2 heq =>
      rw [hg] at heq
      injection heq with h2
      subst h2
      rw [if_neg hn, hq]
      simp only [hw, hw2]

theorem rdczLoop_pushcz1 {data : List Instruction} {wires : List (List String)} {i : Int}
    {ins : Instruction} {q1 q2 : Nat} {w1 : List String} {t1 : String}
    {wires2 : List (List String)}
    (hcnd : i < (data.length : Int))
    (hg : pyGet data i = some ins)
    (hn : ins.name = "cz")
    (hq1 : ins.targets[0]? = some q1)
    (hq2 : ins.targets[1]? = some q2)
    (hw1 : wires[q1]? = some w1)
    (ht1 : pyLast w1 = some t1)
    (ht1n : ¬ strTake2 t1 = "cz")
    (hpz : pushCZ wires q1 q2 i = some wires2) :
    rdczLoop data wires i = rdczLoop data wires2 (i + 1) := by
  rw [rdczLoop.eq_def, dif_pos hcnd]
  split
  · next heq => rw [hg] at heq; exact absurd heq (by simp)
  · next ins2 heq =>
      rw [hg] at heq
      injection heq with h2
      subst h2
      rw [if_pos hn, hq1, hq2]
      simp only [hw1, ht1, if_neg ht1n, hpz]

theorem rdczLoop_pushcz2 {data : List Instruction} {wires : List (List String)} {i : Int}
    {ins : Instruction} {q1 q2 : Nat} {w1 w2 : List String} {t1 t2 : String}
    {wires2 : List (List String)}
    (hcnd : i < (data.length : Int))
    (hg : pyGet data i = some ins)
    (hn : ins.name = "cz")
    (hq1 : ins.targets[0]? = some q1)
    (hq2 : ins.targets[1]? = some q2)
    (hw1 : wires[q1]? = some w1)
    (ht1 : pyLast w1 = some t1)
    (ht1y : strTake2 t1 = "cz")
    (hw2 : wires[q2]? = some w2)
    (ht2 : pyLast w2 = some t2)
    (ht2n : ¬ strTake2 t2 = "cz")
    (hpz : pushCZ wires q1 q2 i = some wires2) :
    rdczLoop data wires i = rdczLoop data wires2 (i + 1) := by
  rw [rdczLoop.eq_def, dif_pos hcnd]
  split
  · next heq => rw [hg] at heq; exact absurd heq (by simp)
  · next ins2 heq =>
      rw [hg] at heq
      injection heq with h2
      subst h2
      rw [if_pos hn, hq1, hq2]
      simp only [hw1, ht1, if_pos ht1y, hw2, ht2, if_neg ht2n, hpz]

theorem rdczLoop_cancel {data : List Instruction} {wires : List (List String)} {i : Int}
    {ins : Instruction} {q1 q2 : Nat} {w1 w2 w1p w2a w2p : List String} {t1 t2 : String}
    {data1 data2 : List Instruction} {m : Int} {wiresF : List (List String)}
    (hcnd : i < (data.length : Int))
    (hg : pyGet data i = some ins)
    (hn : ins.name = "cz")
    (hq1 : ins.targets[0]? = some q1)
    (hq2 : ins.targets[1]? = some q2)
    (hw1 : wires[q1]? = some w1)
    (ht1 : pyLast w1 = some t1)
    (ht1y : strTake2 t1 = "cz")
    (hw2 : wires[q2]? = some w2)
    (ht2 : pyLast w2 = some t2)
    (ht2y : strTake2 t2 = "cz")
    (hp1 : pyPop data i = some data1)
    (hm : parseIdx (strDrop2 t1) = some m)
    (hp2 : pyPop data1 m = some data2)
    (hw1p : pyPopLast w1 = some w1p)
    (hw2a : (wires.set q1 w1p)[q2]? = some w2a)
    (hw2p : pyPopLast w2a = some w2p)
    (hwres : (wires.set q1 w1p).set q2 w2p = wiresF) :
    rdczLoop data wires i = rdczLoop data2 wiresF (i - 1) := by
  rw [rdczLoop.eq_def, dif_pos hcnd]
  split
  · next heq => rw [hg] at heq; exact absurd heq (by simp)
  · next ins2 heq =>
      rw [hg] at heq
      injection heq with h2
      subst h2
      rw [if_pos hn, hq1, hq2]
      simp only [hw1, ht1, if_pos ht1y, hw2, ht2, if_pos ht2y]
      split
      · next heq1 => rw [hp1] at heq1; exact absurd heq1 (by simp)
      · next d1b heq1 =>
          rw [hp1] at heq1
          injection heq1 with h3
          subst h3
          rw [hm]
          split
          · next heq2 => exact absurd heq2 (by simp)
          · next m2 heq2 =>
              injection heq2 with h5
              subst h5
              split
              · next heq3 => rw [hp2] at heq3; exact absurd heq3 (by simp)
              · next d2b heq3 =>
                  rw [hp2] at heq3
                  injection heq3 with h4
                  subst h4
                  simp only [hw1p, hw2a, hw2p, hwres]

theorem crWireLoop_exit {data : List Instruction} {wj : List String} {ind : List Int}
    {i : Int} (h : (wj.length : Int) - 1 ≤ i) :
    crWireLoop data wj ind i = some (data, wj, ind) := by
  rw [crWireLoop.eq_def, dif_neg (by omega)]

theorem crWireLoop_skip {data : List Instruction} {wj : List String} {ind : List Int}
    {i : Int} {e1 e2 : String}
    (hcnd : i < (wj.length : Int) - 1)
    (hg1 : pyGet wj i = some e1)
    (hg2 : pyGet wj (i + 1) = some e2)
    (hne : ¬ strTake2 e1 = strTake2 e2) :
    crWireLoop data wj ind i = crWireLoop data wj ind (i + 1) := by
  rw [crWireLoop.eq_def, dif_pos hcnd]
  split
  · next heq => rw [hg1] at heq; exact absurd heq (by simp)
  · next e1b heq =>
      rw [hg1] at heq
      injection heq with h2
      subst h2
      simp only [hg2, if_neg hne]

theorem crWireLoop_fuse {data : List Instruction} {wj : List String} {ind : List Int}
    {i : Int} {e1 e2 : String} {k1 k2 : Int} {ins1 ins2 : Instruction} {a1 a2 : ℚ}
    {dataS : List Instruction} {wj1 : List String} {ind2 : List Int}
    (hcnd : i < (wj.length : Int) - 1)
    (hg1 : pyGet wj i = some e1)
    (hg2 : pyGet wj (i + 1) = some e2)
    (heq : strTake2 e1 = strTake2 e2)
    (hk1 : parseIdx (strDrop2 e1) = some k1)
    (hk2 : parseIdx (strDrop2 e2) = some k2)
    (hd1 : pyGet data k1 = some ins1)
    (hd2 : pyGet data k2 = some ins2)
    (ha1 : ins1.params[0]? = some a1)
    (ha2 : ins2.params[0]? = some a2)
    (hset : pySet data k2 { ins2 with params := ins2.params.set 0 (a1 + a2) } = some dataS)
    (hp1 : pyPop wj i = some wj1)
    (hnr : ¬ roundTo2 (a1 + a2) = roundTo2 twoPI)
    (hind : ind ++ [k1] = ind2) :
    crWireLoop data wj ind i = crWireLoop dataS wj1 ind2 i := by
  rw [crWireLoop.eq_def, dif_pos hcnd]
  split
  · next h0 => rw [hg1] at h0; exact absurd h0 (by simp)
  · next e1b h0 =>
      rw [hg1] at h0
      injection h0 with h2
      subst h2
      simp only [hg2, if_pos heq, hk1, hk2, hd1, hd2, ha1, ha2, hset]
      split
      · next h1 => rw [hp1] at h1; exact absurd h1 (by simp)
      · next wj1b h1 =>
          rw [hp1] at h1
          injection h1 with h3
          subst h3
          rw [if_neg hnr, hind]

theorem crWireLoop_fuse2pi {data : List Instruction} {wj : List String} {ind : List Int}
    {i : Int} {e1 e2 : String} {k1 k2 : Int} {ins1 ins2 : Instruction} {a1 a2 : ℚ}
    {dataS : List Instruction} {wj1 wj2 : List String} {indF : List Int}
    (hcnd : i < (wj.length : Int) - 1)
    (hg1 : pyGet wj i = some e1)
    (hg2 : pyGet wj (i + 1) = some e2)
    (heq : strTake2 e1 = strTake2 e2)
    (hk1 : parseIdx (strDrop2 e1) = some k1)
    (hk2 : parseIdx (strDrop2 e2) = some k2)
    (hd1 : pyGet data k1 = some ins1)
    (hd2 : pyGet data k2 = some ins2)
    (ha1 : ins1.params[0]? = some a1)
    (ha2 : ins2.params[0]? = some a2)
    (hset : pySet data k2 { ins2 with params := ins2.params.set 0 (a1 + a2) } = some dataS)
    (hp1 : pyPop wj i = some wj1)
    (hr : roundTo2 (a1 + a2) = roundTo2 twoPI)
    (hp2 : pyPop wj1 i = some wj2)
    (hind : ind ++ [k1] ++ [k2] = indF) :
    crWireLoop data wj ind i = crWireLoop dataS wj2 indF (i - 2) := by
  rw [crWireLoop.eq_def, dif_pos hcnd]
  split
  · next h0 => rw [hg1] at h0; exact absurd h0 (by simp)
  · next e1b h0 =>
      rw [hg1] at h0
      injection h0 with h2
      subst h2
      simp only [hg2, if_pos heq, hk1, hk2, hd1, hd2, ha1, ha2, hset]
      split
      · next h1 => rw [hp1] at h1; exact absurd h1 (by simp)
      · next wj1b h1 =>
          rw [hp1] at h1
          injection h1 with h3
          subst h3
          rw [if_pos hr]
          split
          · next h4 => rw [hp2] at h4; exact absurd h4 (by simp)
          · next wj2b h4 =>
              rw [hp2] at h4
              injection h4 with h5
              subst h5
              rw [hind]

theorem crWireLoop_parsefail {data : List Instruction} {wj : List String} {ind : List Int}
    {i : Int} {e1 e2 : String}
    (hcnd : i < (wj.length : Int) - 1)
    (hg1 : pyGet wj i = some e1)
    (hg2 : pyGet wj (i + 1) = some e2)
    (heq : strTake2 e1 = strTake2 e2)
    (hk1 : parseIdx (strDrop2 e1) = none)
    (hk2 : parseIdx (strDrop2 e2) = none) :
    crWireLoop data wj ind i = none := by
  rw [crWireLoop.eq_def, dif_pos hcnd]
  split
  · next h0 => simp [hg1] at h0
  · next e1b h0 =>
      rw [hg1] at h0
      injection h0 with h2
      subst h2
      simp only [hg2, if_pos heq, hk1, hk2]

/-- The keep test of removeZeroRotations as a Bool predicate. -/
def keepIns (ins : Instruction) : Bool :=
  !(decide (ins.params = [0] ∨ ins.params = [twoPI]))

theorem rzrLoop_eq (data : List Instruction) (i : Nat) :
    rzrLoop data i = data.take i ++ (data.drop i).filter keepIns := by
  induction data, i using rzrLoop.induct with
  | case1 data i h hnoop ih =>
      rw [rzrLoop, dif_pos h, if_pos hnoop, ih,
        List.eraseIdx_eq_take_drop_succ]
      have hlen : (data.take i).length = i := by
        simp [List.length_take]
        omega
      rw [List.take_left' hlen, List.drop_left' hlen,
        List.drop_eq_getElem_cons h, List.filter_cons]
      have hnoop2 : data[i].params = [0] ∨ data[i].params = [twoPI] := hnoop
      have hki : keepIns data[i] = false := by simp [keepIns, hnoop2]
      rw [hki]
      simp
  | case2 data i h hkeep ih =>
      rw [rzrLoop, dif_pos h, if_neg hkeep, ih,
        List.drop_eq_getElem_cons h, List.filter_cons]
      have hkeep2 : ¬(data[i].params = [0] ∨ data[i].params = [twoPI]) := hkeep
      have hki : keepIns data[i] = true := by simp [keepIns, hkeep2]
      rw [hki, if_pos rfl, List.take_succ, List.getElem?_eq_getElem h,
        Option.toList_some, List.append_assoc, List.singleton_append]
  | case3 data i h =>
      rw [rzrLoop, dif_neg h]
      rw [List.take_of_length_le (by omega), List.drop_of_length_le (by omega)]
      simp

theorem removeZeroRotations_eq (data : List Instruction) :
    removeZeroRotations data = data.filter keepIns := by
  rw [removeZeroRotations, rzrLoop_eq]
  simp

/-- e occurs on some wire stack of ws. -/
def entryIn (ws : List (List String)) (e : String) : Prop := ∃ w ∈ ws, e ∈ w

theorem entryIn_set {ws : List (List String)} {q : Nat} {w : List String} {e : String}
    (h : entryIn (ws.set q w) e) : entryIn ws e ∨ e ∈ w := by
  obtain ⟨w2, hw2, he⟩ := h
  rcases List.mem_or_eq_of_mem_set hw2 with h2 | h2
  · exact Or.inl ⟨w2, h2, he⟩
  · subst h2
    exact Or.inr he

theorem entryIn_of_get {ws : List (List String)} {q : Nat} {w : List String} {e : String}
    (hw : ws[q]? = some w) (he : e ∈ w) : entryIn ws e :=
  ⟨w, List.getElem?_mem hw, he⟩

theorem pushCZ_entries {wires : List (List String)} {q1 q2 : Nat} {i : Int}
    {wires2 : List (List String)}
    (h : pushCZ wires q1 q2 i = some wires2) :
    ∀ e, entryIn wires2 e → entryIn wires e ∨ e = pushTag ("cz") i := by
  unfold pushCZ at h
  cases hw1 : wires[q1]? with
  | none => rw [hw1] at h; simp at h
  | some w1 =>
      rw [hw1] at h
      simp only at h
      cases hw2 : (wires.set q1 (w1 ++ [pushTag ("cz") i]))[q2]? with
      | none => rw [hw2] at h; simp at h
      | some w2a =>
          rw [hw2] at h
          simp only at h
          injection h with h2
          subst h2
          intro e he
          have hw2mem : w2a ∈ wires.set q1 (w1 ++ [pushTag ("cz") i]) :=
            List.getElem?_mem hw2
          rcases entryIn_set he with he2 | he2
          · rcases entryIn_set he2 with he3 | he3
            · exact Or.inl he3
            · rcases List.mem_append.1 he3 with he4 | he4
              · exact Or.inl (entryIn_of_get hw1 he4)
              · exact Or.inr (by simpa using he4)
          · rcases List.mem_append.1 he2 with he3 | he3
            · rcases List.mem_or_eq_of_mem_set hw2mem with h3 | h3
              · exact Or.inl ⟨w2a, h3, he3⟩
              · subst h3
                rcases List.mem_append.1 he3 with he4 | he4
                · exact Or.inl (entryIn_of_get hw1 he4)
                · exact Or.inr (by simpa using he4)
            · exact Or.inr (by simpa using he3)

/-- One-step inversion for the removeDoubleCZ loop: a call either exits,
    crashes, pushes a tag for the instruction at the scan index onto the
    wire stacks and advances, or deletes two instructions and rewinds. -/
theorem rdczLoop_inv (data : List Instruction) (wires : List (List String)) (i : Int) :
    ((data.length : Int) ≤ i ∧ rdczLoop data wires i = some (data, wires)) ∨
    rdczLoop data wires i = none ∨
    (∃ ins wires2, i < (data.length : Int) ∧ pyGet data i = some ins ∧
      (∀ e, entryIn wires2 e → entryIn wires e ∨ e = pushTag ins.name i) ∧
      rdczLoop data wires i = rdczLoop data wires2 (i + 1)) ∨
    (∃ data2 wires2, i < (data.length : Int) ∧ data2.length + 2 = data.length ∧
      rdczLoop data wires i = rdczLoop data2 wires2 (i - 1)) := by
  rw [rdczLoop.eq_def]
  split
  case isFalse hcnd => exact Or.inl ⟨by omega, rfl⟩
  case isTrue hcnd =>
    split
    · exact Or.inr (Or.inl rfl)
    · next ins hg =>
        split
        · next hn =>
            split
            · next q1 q2 hqa hqb =>
                split
                · exact Or.inr (Or.inl rfl)
                · next w1 hw1 =>
                    split
                    · exact Or.inr (Or.inl rfl)
                    · next t1 ht1 =>
                        split
                        · next ht1c =>
                            split
                            · exact Or.inr (Or.inl rfl)
                            · next w2 hw2 =>
                                split
                                · exact Or.inr (Or.inl rfl)
                                · next t2 ht2 =>
                                    split
                                    · next ht2c =>
                                        split
                                        · exact Or.inr (Or.inl rfl)
                                        · next data1 hp1 =>
                                            split
                                            · exact Or.inr (Or.inl rfl)
                                            · next m hm =>
                                                split
                                                · exact Or.inr (Or.inl rfl)
                                                · next data2 hp2 =>
                                                    split
                                                    · exact Or.inr (Or.inl rfl)
                                                    · next w1p hw1p =>
                                                        split
                                                        · exact Or.inr (Or.inl rfl)
                                                        · next w2a hw2a =>
                                                            split
                                                            · exact Or.inr (Or.inl rfl)
                                                            · next w2p hw2p =>
                                                                refine Or.inr (Or.inr (Or.inr
                                                                  ⟨data2, (wires.set q1 w1p).set q2 w2p, hcnd, ?_, rfl⟩))
                                                                have hl1 := pyPop_length hp1
                                                                have hl2 := pyPop_length hp2
                                                                omega
                                    · next ht2c =>
                                        split
                                        · exact Or.inr (Or.inl rfl)
                                        · next wires2 hpz =>
                                            refine Or.inr (Or.inr (Or.inl
                                              ⟨ins, wires2, hcnd, hg, ?_, rfl⟩))
                                            intro e he
                                            rcases pushCZ_entries hpz e he with h2 | h2
                                            · exact Or.inl h2
                                            · rw [hn]
                                              exact Or.inr h2
                        · next ht1c =>
                            split
                            · exact Or.inr (Or.inl rfl)
                            · next wires2 hpz =>
                                refine Or.inr (Or.inr (Or.inl
                                  ⟨ins, wires2, hcnd, hg, ?_, rfl⟩))
                                intro e he
                                rcases pushCZ_entries hpz e he with h2 | h2
                                · exact Or.inl h2
                                · rw [hn]
                                  exact Or.inr h2
            · exact Or.inr (Or.inl rfl)
        · next hn =>
            split
            · exact Or.inr (Or.inl rfl)
            · next q hq =>
                split
                · exact Or.inr (Or.inl rfl)
                · next w hw =>
                    refine Or.inr (Or.inr (Or.inl
                      ⟨ins, wires.set q (w ++ [pushTag ins.name i]), hcnd, hg, ?_, rfl⟩))
                    intro e he
                    rcases entryIn_set he with h2 | h2
                    · exact Or.inl h2
                    · rcases List.mem_append.1 h2 with h3 | h3
                      · exact Or.inl (entryIn_of_get hw h3)
                      · exact Or.inr (by simpa using h3)

theorem rdczLoop_length_le_aux :
    ∀ (N : Nat) (data : List Instruction) (wires : List (List String)) (i : Int)
      (out : List Instruction) (wires2 : List (List String)),
      (4 * (data.length : Int) - i).toNat ≤ N →
      rdczLoop data wires i = some (out, wires2) →
      out.length ≤ data.length := by
  intro N
  induction N with
  | zero =>
      intro data wires i out wires2 hN h
      rw [rdczLoop_exit (by omega)] at h
      injection h with h2
      injection h2 with h3 h4
      subst h3
      exact Nat.le_refl _
  | succ N ih =>
      intro data wires i out wires2 hN h
      rcases rdczLoop_inv data wires i with ⟨hge, heq⟩ | heq |
        ⟨ins, ws2, hlt, hg, hent, heq⟩ | ⟨d2, ws2, hlt, hl2, heq⟩
      · rw [heq] at h
        injection h with h2
        injection h2 with h3 h4
        subst h3
        exact Nat.le_refl _
      · rw [heq] at h
        exact absurd h (by simp)
      · rw [heq] at h
        exact ih data ws2 (i + 1) out wires2 (by omega) h
      · rw [heq] at h
        have hle := ih d2 ws2 (i - 1) out wires2 (by omega) h
        omega

theorem removeDoubleCZ_length_le {numQubits : Nat} {data out : List Instruction}
    {wires2 : List (List String)}
    (h : removeDoubleCZ numQubits data = some (out, wires2)) :
    out.length ≤ data.length :=
  rdczLoop_length_le_aux ((4 * (data.length : Int)).toNat) data _ 0 out wires2
    (by omega) h

/-- The wire-history invariant of the claim: every non-bottom entry on a
    wire stack is the tag of the instruction currently stored at the
    recorded index. -/
def wiresWF (data : List Instruction) (wires : List (List String)) : Prop :=
  ∀ w ∈ wires, ∀ e ∈ w, e = "" ∨ ∃ k : Nat, ∃ hk : k < data.length,
    e = pushTag (data.get ⟨k, hk⟩).name (k : Int)

theorem rdczLoop_nocancel_aux :
    ∀ (N : Nat) (data : List Instruction) (wires : List (List String)) (i : Int)
      (out : List Instruction) (wires2 : List (List String)),
      (4 * (data.length : Int) - i).toNat ≤ N →
      rdczLoop data wires i = some (out, wires2) →
      out.length = data.length → 0 ≤ i →
      wiresWF data wires → out = data ∧ wiresWF data wires2 := by
  intro N
  induction N with
  | zero =>
      intro data wires i out wires2 hN h hlen hi hwf
      rw [rdczLoop_exit (by omega)] at h
      injection h with h2
      injection h2 with h3 h4
      subst h3
      subst h4
      exact ⟨rfl, hwf⟩
  | succ N ih =>
      intro data wires i out wires2 hN h hlen hi hwf
      rcases rdczLoop_inv data wires i with ⟨hge, heq⟩ | heq |
        ⟨ins, ws2, hlt, hg, hent, heq⟩ | ⟨d2, ws2, hlt, hl2, heq⟩
      · rw [heq] at h
        injection h with h2
        injection h2 with h3 h4
        subst h3
        subst h4
        exact ⟨rfl, hwf⟩
      · rw [heq] at h
        exact absurd h (by simp)
      · rw [heq] at h
        have hwf2 : wiresWF data ws2 := by
          intro w hw e he
          rcases hent e ⟨w, hw, he⟩ with h2 | h2
          · obtain ⟨w3, hw3, he3⟩ := h2
            exact hwf w3 hw3 e he3
          · right
            have hi2 : ((i.toNat : Nat) : Int) = i := Int.toNat_of_nonneg hi
            have hg2 : data[i.toNat]? = some ins := by
              rw [← pyGet_ofNat, hi2]
              exact hg
            have hklt : i.toNat < data.length := by
              have hb := pyGet_bounds hg
              omega
            refine ⟨i.toNat, hklt, ?_⟩
            have hgi : data.get ⟨i.toNat, hklt⟩ = ins := by
              rw [List.getElem?_eq_getElem hklt] at hg2
              exact Option.some.inj hg2
            rw [h2, hgi, hi2]
        exact ih data ws2 (i + 1) out wires2 (by omega) h hlen (by omega) hwf2
      · rw [heq] at h
        have hle := rdczLoop_length_le_aux N d2 ws2 (i - 1) out wires2 (by omega) h
        exfalso
        omega

/-- One-step inversion for the combineRotations inner loop. -/
theorem crWireLoop_inv (data : List Instruction) (wj : List String) (ind : List Int)
    (i : Int) :
    ((wj.length : Int) - 1 ≤ i ∧ crWireLoop data wj ind i = some (data, wj, ind)) ∨
    crWireLoop data wj ind i = none ∨
    (∃ data2 wj2 ind2 i2, i < (wj.length : Int) - 1 ∧
      data2.length = data.length ∧
      crWireLoop data wj ind i = crWireLoop data2 wj2 ind2 i2 ∧
      ((wj2 = wj ∧ i2 = i + 1) ∨ (wj2.length + 1 = wj.length ∧ i2 = i) ∨
        (wj2.length + 2 = wj.length ∧ i2 = i - 2))) := by
  rw [crWireLoop.eq_def]
  split
  case isFalse hcnd => exact Or.inl ⟨by omega, rfl⟩
  case isTrue hcnd =>
    split
    · exact Or.inr (Or.inl rfl)
    · next e1 hg1 =>
        split
        · exact Or.inr (Or.inl rfl)
        · next e2 hg2 =>
            split
            · next heq =>
                split
                · next k1 k2 hk1 hk2 =>
                    split
                    · next ins1 ins2 hd1 hd2 =>
                        split
                        · next a1 a2 ha1 ha2 =>
                            split
                            · exact Or.inr (Or.inl rfl)
                            · next dataS hset =>
                                split
                                · exact Or.inr (Or.inl rfl)
                                · next wj1 hp1 =>
                                    split
                                    · next hr =>
                                        split
                                        · exact Or.inr (Or.inl rfl)
                                        · next wj2 hp2 =>
                                            refine Or.inr (Or.inr
                                              ⟨dataS, wj2, ind ++ [k1] ++ [k2], i - 2,
                                                hcnd, pySet_length hset, rfl, ?_⟩)
                                            right
                                            right
                                            have hl1 := pyPop_length hp1
                                            have hl2 := pyPop_length hp2
                                            omega
                                    · next hr =>
                                        refine Or.inr (Or.inr
                                          ⟨dataS, wj1, ind ++ [k1], i,
                                            hcnd, pySet_length hset, rfl, ?_⟩)
                                        right
                                        left
                                        have hl1 := pyPop_length hp1
                                        omega
                        · exact Or.inr (Or.inl rfl)
                    · exact Or.inr (Or.inl rfl)
                · exact Or.inr (Or.inl rfl)
            · next hne =>
                exact Or.inr (Or.inr
                  ⟨data, wj, ind, i + 1, hcnd, rfl, rfl, Or.inl ⟨rfl, rfl⟩⟩)

theorem crWireLoop_data_length_aux :
    ∀ (N : Nat) (data : List Instruction) (wj : List String) (ind : List Int) (i : Int)
      (d2 : List Instruction) (wj2 : List String) (ind2 : List Int),
      (4 * (wj.length : Int) - i).toNat ≤ N →
      crWireLoop data wj ind i = some (d2, wj2, ind2) →
      d2.length = data.length := by
  intro N
  induction N with
  | zero =>
      intro data wj ind i d2 wj2 ind2 hN h
      rw [crWireLoop_exit (by omega)] at h
      injection h with h2
      injection h2 with h3 h4
      subst h3
      rfl
  | succ N ih =>
      intro data wj ind i d2 wj2 ind2 hN h
      rcases crWireLoop_inv data wj ind i with ⟨hge, heq⟩ | heq |
        ⟨dA, wjA, indA, iA, hlt, hlen, heq, hvar⟩
      · rw [heq] at h
        injection h with h2
        injection h2 with h3 h4
        subst h3
        rfl
      · rw [heq] at h
        exact absurd h (by simp)
      · rw [heq] at h
        rcases hvar with ⟨hw, hi⟩ | ⟨hw, hi⟩ | ⟨hw, hi⟩ <;> subst hi
        · have := ih dA wjA indA (i + 1) d2 wj2 ind2 (by rw [hw]; omega) h
          omega
        · have := ih dA wjA indA iA d2 wj2 ind2 (by omega) h
          omega
        · have := ih dA wjA indA (i - 2) d2 wj2 ind2 (by omega) h
          omega

theorem crWires_data_length :
    ∀ (ws : List (List String)) (data : List Instruction) (ind : List Int)
      (d2 : List Instruction) (ind2 : List Int),
      crWires data ws ind = some (d2, ind2) → d2.length = data.length := by
  intro ws
  induction ws with
  | nil =>
      intro data ind d2 ind2 h
      injection h with h2
      injection h2 with h3 h4
      subst h3
      rfl
  | cons wj rest ih =>
      intro data ind d2 ind2 h
      rw [crWires] at h
      cases hc : crWireLoop data wj ind 0 with
      | none => rw [hc] at h; exact absurd h (by simp)
      | some r =>
          obtain ⟨dA, wjA, indA⟩ := r
          rw [hc] at h
          simp only at h
          have h1 := ih dA indA d2 ind2 h
          have h2 := crWireLoop_data_length_aux ((4 * (wj.length : Int)).toNat)
            data wj ind 0 dA wjA indA (by omega) hc
          omega

theorem popMany_length_le :
    ∀ (ks : List Int) (data out : List Instruction),
      popMany data ks = some out → out.length ≤ data.length := by
  intro ks
  induction ks with
  | nil =>
      intro data out h
      injection h with h2
      subst h2
      exact Nat.le_refl _
  | cons k rest ih =>
      intro data out h
      rw [popMany] at h
      cases hp : pyPop data k with
      | none => rw [hp] at h; exact absurd h (by simp)
      | some d2 =>
          rw [hp] at h
          simp only at h
          have h1 := ih d2 out h
          have h2 := pyPop_length hp
          omega

theorem combineRotations_length_le {data : List Instruction}
    {wires : List (List String)} {out : List Instruction}
    (h : combineRotations data wires = some out) : out.length ≤ data.length := by
  rw [combineRotations] at h
  cases hc : crWires data wires [] with
  | none => rw [hc] at h; exact absurd h (by simp)
  | some r =>
      obtain ⟨d2, ind⟩ := r
      rw [hc] at h
      simp only at h
      have h1 := popMany_length_le (sortDesc ind) d2 out h
      have h2 := crWires_data_length wires data [] d2 ind hc
      omega

theorem crWires_bottom :
    ∀ (ws : List (List String)) (data : List Instruction) (ind : List Int),
      (∀ w ∈ ws, w = [""]) → crWires data ws ind = some (data, ind) := by
  intro ws
  induction ws with
  | nil => intro data ind h; rfl
  | cons wj rest ih =>
      intro data ind h
      have hwj : wj = [""] := h wj (by simp)
      subst hwj
      rw [crWires, crWireLoop_exit (by norm_num)]
      exact ih data ind (fun w hw => h w (by simp [hw]))

theorem crWires_set_bottom :
    ∀ (m q : Nat) (W : List String) (data : List Instruction) (ind : List Int),
      q < m →
      crWires data ((List.replicate m [""]).set q W) ind =
        (match crWireLoop data W ind 0 with
          | none => none
          | some (d2, _, ind2) =>
              crWires d2 (List.replicate (m - q - 1) [""]) ind2) := by
  intro m
  induction m with
  | zero => intro q W data ind h; exact absurd h (by omega)
  | succ m ihm =>
      intro q W data ind hq
      cases q with
      | zero =>
          rw [List.replicate_succ, List.set_cons_zero, crWires]
          cases hc : crWireLoop data W ind 0 with
          | none => rfl
          | some r =>
              obtain ⟨d2, wj2, ind2⟩ := r
              norm_num
      | succ q2 =>
          rw [List.replicate_succ, List.set_cons_succ]
          have hx : crWireLoop data [""] ind 0 = some (data, [""], ind) :=
            crWireLoop_exit (by norm_num)
          rw [crWires]
          simp only [hx]
          rw [ihm q2 W data ind (by omega)]
          have harith : m + 1 - (q2 + 1) - 1 = m - q2 - 1 := by omega
          rw [harith]

theorem crWireLoop_paramfail {data : List Instruction} {wj : List String} {ind : List Int}
    {i : Int} {e1 e2 : String} {k1 k2 : Int} {ins1 ins2 : Instruction}
    (hcnd : i < (wj.length : Int) - 1)
    (hg1 : pyGet wj i = some e1)
    (hg2 : pyGet wj (i + 1) = some e2)
    (heq : strTake2 e1 = strTake2 e2)
    (hk1 : parseIdx (strDrop2 e1) = some k1)
    (hk2 : parseIdx (strDrop2 e2) = some k2)
    (hd1 : pyGet data k1 = some ins1)
    (hd2 : pyGet data k2 = some ins2)
    (ha1 : ins1.params[0]? = none) :
    crWireLoop data wj ind i = none := by
  rw [crWireLoop.eq_def, dif_pos hcnd]
  split
  · next h0 => simp [hg1] at h0
  · next e1b h0 =>
      rw [hg1] at h0
      injection h0 with h2
      subst h2
      simp only [hg2, if_pos heq, hk1, hk2, hd1, hd2, ha1]

/-- The value of an angle reduced modulo one full turn (2*PI), used to
    state the fusion claim: x - 2PI * floor(x / 2PI), with the floor
    computed by integer floor division. -/
def modTurn (x : ℚ) : ℚ :=
  x - twoPI * Rat.divInt ((x / twoPI).num.fdiv (((x / twoPI).den : ℤ))) 1

/-- A cz instruction on qubits a and b. -/
def czI (a b : Nat) : Instruction := ⟨"cz", [], [a, b]⟩

/-- An rx rotation by t on qubit q. -/
def rxI (t : ℚ) (q : Nat) : Instruction := ⟨"rx", [t], [q]⟩

/-- An rz rotation by t on qubit q. -/
def rzI (t : ℚ) (q : Nat) : Instruction := ⟨"rz", [t], [q]⟩

theorem strTake2_append {s t : String} (h : s.data.length = 2) :
    strTake2 (s ++ t) = s := by
  rw [strTake2, String.data_append, List.take_left' h]

theorem strDrop2_append {s t : String} (h : s.data.length = 2) :
    strDrop2 (s ++ t) = t := by
  rw [strDrop2, String.data_append, List.drop_left' h]

section ClaimTheorems

attribute [local semireducible] Rat.mul Rat.add Rat.sub Rat.inv

/-- C10: Identity-Rotation Elimination decides removal solely by comparing
    the instruction's parameter list to [0.0] and [2*PI]: the pass equals
    a filter keeping exactly the instructions whose params list is neither,
    regardless of gate kind; in particular an instruction with an empty
    parameter list (such as the cz gate) is never removed. -/
theorem claim_C10_removal_by_params_only (data : List Instruction) :
    removeZeroRotations data =
      data.filter (fun ins =>
        !(decide (ins.params = [0] ∨ ins.params = [twoPI]))) := by
  rw [removeZeroRotations_eq]
  rfl

/-- C5: on basis-restricted sequences (rx/rz with a single angle, cz with
    no parameters) removeZeroRotations removes exactly the rotation
    instructions whose angle equals 0 or the double value of 2*PI, keeping
    every other instruction in relative order (the pass is a filter, with
    the scan-index decrement ensuring no element is skipped), and mutates
    nothing but the sequence. -/
theorem claim_C5_zero_rotation_filter (data : List Instruction)
    (hbasis : ∀ ins ∈ data,
      ((ins.name = "rx" ∨ ins.name = "rz") ∧ ∃ t, ins.params = [t]) ∨
      (ins.name = "cz" ∧ ins.params = [])) :
    removeZeroRotations data =
      data.filter (fun ins =>
        !(decide ((ins.name = "rx" ∨ ins.name = "rz") ∧
          (ins.params = [0] ∨ ins.params = [twoPI])))) := by
  rw [removeZeroRotations_eq]
  apply List.filter_congr
  intro ins hins
  rcases hbasis ins hins with ⟨hrot, t, ht⟩ | ⟨hcz, hp⟩
  · simp [keepIns, hrot]
  · simp [keepIns, hcz, hp]

/-- Witness for C5 at a concrete basis-restricted sequence. -/
theorem claim_C5_zero_rotation_filter_witness :
    (∀ ins ∈ [rxI 0 0, czI 0 1, rzI twoPI 1, rxI 5 0],
      ((ins.name = "rx" ∨ ins.name = "rz") ∧ ∃ t, ins.params = [t]) ∨
      (ins.name = "cz" ∧ ins.params = [])) ∧
    removeZeroRotations [rxI 0 0, czI 0 1, rzI twoPI 1, rxI 5 0] =
      [rxI 0 0, czI 0 1, rzI twoPI 1, rxI 5 0].filter (fun ins =>
        !(decide ((ins.name = "rx" ∨ ins.name = "rz") ∧
          (ins.params = [0] ∨ ins.params = [twoPI])))) := by
  have hb : ∀ ins ∈ [rxI 0 0, czI 0 1, rzI twoPI 1, rxI 5 0],
      ((ins.name = "rx" ∨ ins.name = "rz") ∧ ∃ t, ins.params = [t]) ∨
      (ins.name = "cz" ∧ ins.params = []) := by
    intro ins h
    simp only [List.mem_cons, List.not_mem_nil, or_false] at h
    rcases h with rfl | rfl | rfl | rfl
    · exact Or.inl ⟨Or.inl rfl, 0, rfl⟩
    · exact Or.inr ⟨rfl, rfl⟩
    · exact Or.inl ⟨Or.inr rfl, twoPI, rfl⟩
    · exact Or.inl ⟨Or.inl rfl, 5, rfl⟩
  exact ⟨hb, claim_C5_zero_rotation_filter _ hb⟩

/-- C6 (code bug): the compiler's arity dispatch is an if/elif with no
    else branch, so a gate with three target qubits is silently skipped:
    for every decomposer pair, compiling a circuit holding one 3-qubit
    gate succeeds (no error is raised) and returns the empty output — the
    gate is dropped rather than rejected. -/
theorem claim_C6_arity3_silently_skipped
    (d1 : String → List String) (d2 : String → List (String × List Nat))
    (g : String) :
    compiler d1 d2 [⟨g, [0, 1, 2]⟩] = some [] := by
  simp [compiler, compilerStep]

/-- C1 (code bug): removeDoubleCZ cancels a cz without checking that the
    tops of the two wire stacks record the same prior cz instance.  On
    [cz(0,1), cz(1,2), cz(0,2)] the tops of wires 0 and 2 are the distinct
    tags "cz0" and "cz1", yet the pass deletes cz(0,2) together with
    cz(0,1) (the index parsed from wire 0's top), returning the single
    instruction cz(1,2) instead of leaving all three in place. -/
theorem claim_C1_cancel_ignores_index_equality :
    removeDoubleCZ 3 [czI 0 1, czI 1 2, czI 0 2] =
      some ([czI 1 2], [[""], ["", "cz0", "cz1"], [""]]) := by
  rw [removeDoubleCZ]
  rw [@rdczLoop_pushcz1 [czI 0 1, czI 1 2, czI 0 2] (List.replicate 3 [""]) 0
    (czI 0 1) 0 1 [""] "" [["", "cz0"], ["", "cz0"], [""]]
    (by decide) (by decide) (by decide) (by decide) (by decide) (by decide)
    (by decide) (by decide) (by decide)]
  rw [show ((0:Int) + 1 = 1) from by decide]
  rw [@rdczLoop_pushcz2 [czI 0 1, czI 1 2, czI 0 2]
    [["", "cz0"], ["", "cz0"], [""]] 1 (czI 1 2) 1 2
    ["", "cz0"] [""] "cz0" ""
    [["", "cz0"], ["", "cz0", "cz1"], ["", "cz1"]]
    (by decide) (by decide) (by decide) (by decide) (by decide) (by decide)
    (by decide) (by decide) (by decide) (by decide) (by decide) (by decide)]
  rw [show ((1:Int) + 1 = 2) from by decide]
  rw [@rdczLoop_cancel [czI 0 1, czI 1 2, czI 0 2]
    [["", "cz0"], ["", "cz0", "cz1"], ["", "cz1"]] 2 (czI 0 2) 0 2
    ["", "cz0"] ["", "cz1"] [""] ["", "cz1"] [""] "cz0" "cz1"
    [czI 0 1, czI 1 2] [czI 1 2] 0 [[""], ["", "cz0", "cz1"], [""]]
    (by decide) (by decide) (by decide) (by decide) (by decide) (by decide)
    (by decide) (by decide) (by decide) (by decide) (by decide) (by decide)
    (by decide) (by decide) (by decide) (by decide) (by decide) (by decide)]
  rw [show ((2:Int) - 1 = 1) from by decide]
  rw [rdczLoop_exit (by decide)]


/-- C3 (code bug): two cz tags that sit consecutively on a wire are
    treated by combineRotations as a fusible same-kind pair.  On the input
    [cz(0,1), cz(0,2)] nothing cancels, wire 0 then holds the tags "cz0"
    and "cz1" consecutively, and the fusion pass reads params[0] of a cz
    gate, which has no parameters: the driver raises (IndexError, modelled
    as none) instead of never fusing ENTANGLE entries. -/
theorem claim_C3_cz_tags_treated_as_rotations :
    simplify 3 [czI 0 1, czI 0 2] = none := by
  have hz : removeZeroRotations [czI 0 1, czI 0 2] = [czI 0 1, czI 0 2] := by
    rw [removeZeroRotations_eq]
    decide
  have hrd : removeDoubleCZ 3 [czI 0 1, czI 0 2] =
      some ([czI 0 1, czI 0 2],
        [["", "cz0", "cz1"], ["", "cz0"], ["", "cz1"]]) := by
    rw [removeDoubleCZ]
    rw [@rdczLoop_pushcz1 [czI 0 1, czI 0 2] (List.replicate 3 [""]) 0
      (czI 0 1) 0 1 [""] "" [["", "cz0"], ["", "cz0"], [""]]
      (by decide) (by decide) (by decide) (by decide) (by decide) (by decide)
      (by decide) (by decide) (by decide)]
    rw [show ((0:Int) + 1 = 1) from by decide]
    rw [@rdczLoop_pushcz2 [czI 0 1, czI 0 2]
      [["", "cz0"], ["", "cz0"], [""]] 1 (czI 0 2) 0 2
      ["", "cz0"] [""] "cz0" ""
      [["", "cz0", "cz1"], ["", "cz0"], ["", "cz1"]]
      (by decide) (by decide) (by decide) (by decide) (by decide) (by decide)
      (by decide) (by decide) (by decide) (by decide) (by decide) (by decide)]
    rw [show ((1:Int) + 1 = 2) from by decide]
    rw [rdczLoop_exit (by decide)]
  have hwire : crWireLoop [czI 0 1, czI 0 2] ["", "cz0", "cz1"] [] 0 = none := by
    rw [@crWireLoop_skip [czI 0 1, czI 0 2] ["", "cz0", "cz1"] [] 0 "" "cz0"
      (by decide) (by decide) (by decide) (by decide)]
    rw [show ((0:Int) + 1 = 1) from by decide]
    exact @crWireLoop_paramfail [czI 0 1, czI 0 2] ["", "cz0", "cz1"] [] 1
      "cz0" "cz1" 0 1 (czI 0 1) (czI 0 2)
      (by decide) (by decide) (by decide) (by decide) (by decide) (by decide)
      (by decide) (by decide) (by decide)
  have hcr : crWires [czI 0 1, czI 0 2]
      [["", "cz0", "cz1"], ["", "cz0"], ["", "cz1"]] [] = none := by
    rw [crWires]
    simp only [hwire]
  have hcomb : combineRotations [czI 0 1, czI 0 2]
      [["", "cz0", "cz1"], ["", "cz0"], ["", "cz1"]] = none := by
    rw [combineRotations, hcr]
  simp only [simplify, hz, hrd, hcomb]

/-- C7 (code bug): on [cz(0,1), rz(1) on 0, cz(0,1)] the cancellation pass
    correctly leaves all three instructions (the rotation breaks adjacency
    on wire 0), but wire 1 then holds the tags "cz0" and "cz2"
    consecutively and the fusion pass reads params[0] of a cz gate, which
    has no parameters: the driver raises (modelled as none) instead of
    returning the length-3 sequence the claim requires. -/
theorem claim_C7_intervening_rotation_crash :
    simplify 2 [czI 0 1, rzI 1 0, czI 0 1] = none := by
  have hz : removeZeroRotations [czI 0 1, rzI 1 0, czI 0 1] =
      [czI 0 1, rzI 1 0, czI 0 1] := by
    rw [removeZeroRotations_eq]
    decide
  have hrd : removeDoubleCZ 2 [czI 0 1, rzI 1 0, czI 0 1] =
      some ([czI 0 1, rzI 1 0, czI 0 1],
        [["", "cz0", "rz1", "cz2"], ["", "cz0", "cz2"]]) := by
    rw [removeDoubleCZ]
    rw [@rdczLoop_pushcz1 [czI 0 1, rzI 1 0, czI 0 1] (List.replicate 2 [""]) 0
      (czI 0 1) 0 1 [""] "" [["", "cz0"], ["", "cz0"]]
      (by decide) (by decide) (by decide) (by decide) (by decide) (by decide)
      (by decide) (by decide) (by decide)]
    rw [show ((0:Int) + 1 = 1) from by decide]
    rw [@rdczLoop_push [czI 0 1, rzI 1 0, czI 0 1]
      [["", "cz0"], ["", "cz0"]] 1 (rzI 1 0) 0 ["", "cz0"]
      [["", "cz0", "rz1"], ["", "cz0"]]
      (by decide) (by decide) (by decide) (by decide) (by decide) (by decide)]
    rw [show ((1:Int) + 1 = 2) from by decide]
    rw [@rdczLoop_pushcz1 [czI 0 1, rzI 1 0, czI 0 1]
      [["", "cz0", "rz1"], ["", "cz0"]] 2 (czI 0 1) 0 1
      ["", "cz0", "rz1"] "rz1" [["", "cz0", "rz1", "cz2"], ["", "cz0", "cz2"]]
      (by decide) (by decide) (by decide) (by decide) (by decide) (by decide)
      (by decide) (by decide) (by decide)]
    rw [show ((2:Int) + 1 = 3) from by decide]
    rw [rdczLoop_exit (by decide)]
  have hw0 : crWireLoop [czI 0 1, rzI 1 0, czI 0 1]
      ["", "cz0", "rz1", "cz2"] [] 0 =
      some ([czI 0 1, rzI 1 0, czI 0 1], ["", "cz0", "rz1", "cz2"], []) := by
    rw [@crWireLoop_skip [czI 0 1, rzI 1 0, czI 0 1]
      ["", "cz0", "rz1", "cz2"] [] 0 "" "cz0"
      (by decide) (by decide) (by decide) (by decide)]
    rw [show ((0:Int) + 1 = 1) from by decide]
    rw [@crWireLoop_skip [czI 0 1, rzI 1 0, czI 0 1]
      ["", "cz0", "rz1", "cz2"] [] 1 "cz0" "rz1"
      (by decide) (by decide) (by decide) (by decide)]
    rw [show ((1:Int) + 1 = 2) from by decide]
    rw [@crWireLoop_skip [czI 0 1, rzI 1 0, czI 0 1]
      ["", "cz0", "rz1", "cz2"] [] 2 "rz1" "cz2"
      (by decide) (by decide) (by decide) (by decide)]
    rw [show ((2:Int) + 1 = 3) from by decide]
    rw [crWireLoop_exit (by decide)]
  have hw1 : crWireLoop [czI 0 1, rzI 1 0, czI 0 1] ["", "cz0", "cz2"] [] 0 =
      none := by
    rw [@crWireLoop_skip [czI 0 1, rzI 1 0, czI 0 1] ["", "cz0", "cz2"] [] 0
      "" "cz0" (by decide) (by decide) (by decide) (by decide)]
    rw [show ((0:Int) + 1 = 1) from by decide]
    exact @crWireLoop_paramfail [czI 0 1, rzI 1 0, czI 0 1] ["", "cz0", "cz2"]
      [] 1 "cz0" "cz2" 0 2 (czI 0 1) (czI 0 1)
      (by decide) (by decide) (by decide) (by decide) (by decide) (by decide)
      (by decide) (by decide) (by decide)
  have hcr : crWires [czI 0 1, rzI 1 0, czI 0 1]
      [["", "cz0", "rz1", "cz2"], ["", "cz0", "cz2"]] [] = none := by
    rw [crWires]
    simp only [hw0]
    rw [crWires]
    simp only [hw1]
  have hcomb : combineRotations [czI 0 1, rzI 1 0, czI 0 1]
      [["", "cz0", "rz1", "cz2"], ["", "cz0", "cz2"]] = none := by
    rw [combineRotations, hcr]
  simp only [simplify, hz, hrd, hcomb]

/-- C9 counterexample: the driver does not return a sequence for every
    input: on [rx(1) on 0, cz(0,1), cz(0,2)] the fusion pass matches the
    two cz tags left adjacent on wire 0 and crashes reading a cz's missing
    angle, so no output sequence exists whose length could be compared. -/
theorem claim_C9_counterexample :
    simplify 3 [rxI 1 0, czI 0 1, czI 0 2] = none := by
  have hz : removeZeroRotations [rxI 1 0, czI 0 1, czI 0 2] =
      [rxI 1 0, czI 0 1, czI 0 2] := by
    rw [removeZeroRotations_eq]
    decide
  have hrd : removeDoubleCZ 3 [rxI 1 0, czI 0 1, czI 0 2] =
      some ([rxI 1 0, czI 0 1, czI 0 2],
        [["", "rx0", "cz1", "cz2"], ["", "cz1"], ["", "cz2"]]) := by
    rw [removeDoubleCZ]
    rw [@rdczLoop_push [rxI 1 0, czI 0 1, czI 0 2] (List.replicate 3 [""]) 0
      (rxI 1 0) 0 [""] [["", "rx0"], [""], [""]]
      (by decide) (by decide) (by decide) (by decide) (by decide) (by decide)]
    rw [show ((0:Int) + 1 = 1) from by decide]
    rw [@rdczLoop_pushcz1 [rxI 1 0, czI 0 1, czI 0 2]
      [["", "rx0"], [""], [""]] 1 (czI 0 1) 0 1 ["", "rx0"] "rx0"
      [["", "rx0", "cz1"], ["", "cz1"], [""]]
      (by decide) (by decide) (by decide) (by decide) (by decide) (by decide)
      (by decide) (by decide) (by decide)]
    rw [show ((1:Int) + 1 = 2) from by decide]
    rw [@rdczLoop_pushcz2 [rxI 1 0, czI 0 1, czI 0 2]
      [["", "rx0", "cz1"], ["", "cz1"], [""]] 2 (czI 0 2) 0 2
      ["", "rx0", "cz1"] [""] "cz1" ""
      [["", "rx0", "cz1", "cz2"], ["", "cz1"], ["", "cz2"]]
      (by decide) (by decide) (by decide) (by decide) (by decide) (by decide)
      (by decide) (by decide) (by decide) (by decide) (by decide) (by decide)]
    rw [show ((2:Int) + 1 = 3) from by decide]
    rw [rdczLoop_exit (by decide)]
  have hwire : crWireLoop [rxI 1 0, czI 0 1, czI 0 2]
      ["", "rx0", "cz1", "cz2"] [] 0 = none := by
    rw [@crWireLoop_skip [rxI 1 0, czI 0 1, czI 0 2]
      ["", "rx0", "cz1", "cz2"] [] 0 "" "rx0"
      (by decide) (by decide) (by decide) (by decide)]
    rw [show ((0:Int) + 1 = 1) from by decide]
    rw [@crWireLoop_skip [rxI 1 0, czI 0 1, czI 0 2]
      ["", "rx0", "cz1", "cz2"] [] 1 "rx0" "cz1"
      (by decide) (by decide) (by decide) (by decide)]
    rw [show ((1:Int) + 1 = 2) from by decide]
    exact @crWireLoop_paramfail [rxI 1 0, czI 0 1, czI 0 2]
      ["", "rx0", "cz1", "cz2"] [] 2 "cz1" "cz2" 1 2 (czI 0 1) (czI 0 2)
      (by decide) (by decide) (by decide) (by decide) (by decide) (by decide)
      (by decide) (by decide) (by decide)
  have hcr : crWires [rxI 1 0, czI 0 1, czI 0 2]
      [["", "rx0", "cz1", "cz2"], ["", "cz1"], ["", "cz2"]] [] = none := by
    rw [crWires]
    simp only [hwire]
  have hcomb : combineRotations [rxI 1 0, czI 0 1, czI 0 2]
      [["", "rx0", "cz1", "cz2"], ["", "cz1"], ["", "cz2"]] = none := by
    rw [combineRotations, hcr]
  simp only [simplify, hz, hrd, hcomb]

/-- C9 (amended): whenever the Optimizer Driver returns a sequence, its
    length is at most the input length — every pass only deletes or
    rewrites instructions in place, never inserts. -/
theorem claim_C9_length_nonincreasing (numQubits : Nat)
    (data out : List Instruction) (h : simplify numQubits data = some out) :
    out.length ≤ data.length := by
  rw [simplify] at h
  cases hrd : removeDoubleCZ numQubits (removeZeroRotations data) with
  | none => rw [hrd] at h; exact absurd h (by simp)
  | some r =>
      obtain ⟨d2, wires⟩ := r
      rw [hrd] at h
      simp only at h
      have h1 := combineRotations_length_le h
      have h2 := removeDoubleCZ_length_le hrd
      have h3 : (removeZeroRotations data).length ≤ data.length := by
        rw [removeZeroRotations_eq]
        exact List.length_filter_le _ _
      omega

/-- Witness for C9 at a concrete input on which the driver returns. -/
theorem claim_C9_length_nonincreasing_witness :
    simplify 1 [rxI 1 0] = some [rxI 1 0] ∧
    ([rxI 1 0] : List Instruction).length ≤ ([rxI 1 0] : List Instruction).length := by
  have hz : removeZeroRotations [rxI 1 0] = [rxI 1 0] := by
    rw [removeZeroRotations_eq]
    decide
  have hrd : removeDoubleCZ 1 [rxI 1 0] = some ([rxI 1 0], [["", "rx0"]]) := by
    rw [removeDoubleCZ]
    rw [@rdczLoop_push [rxI 1 0] (List.replicate 1 [""]) 0
      (rxI 1 0) 0 [""] [["", "rx0"]]
      (by decide) (by decide) (by decide) (by decide) (by decide) (by decide)]
    rw [show ((0:Int) + 1 = 1) from by decide]
    rw [rdczLoop_exit (by decide)]
  have hwire : crWireLoop [rxI 1 0] ["", "rx0"] [] 0 =
      some ([rxI 1 0], ["", "rx0"], []) := by
    rw [@crWireLoop_skip [rxI 1 0] ["", "rx0"] [] 0 "" "rx0"
      (by decide) (by decide) (by decide) (by decide)]
    rw [show ((0:Int) + 1 = 1) from by decide]
    rw [crWireLoop_exit (by decide)]
  have hcr : crWires [rxI 1 0] [["", "rx0"]] [] = some ([rxI 1 0], []) := by
    rw [crWires]
    simp only [hwire]
    rfl
  have hcomb : combineRotations [rxI 1 0] [["", "rx0"]] = some [rxI 1 0] := by
    rw [combineRotations, hcr]
    decide
  have hs : simplify 1 [rxI 1 0] = some [rxI 1 0] := by
    simp only [simplify, hz, hrd, hcomb]
  exact ⟨hs, claim_C9_length_nonincreasing 1 [rxI 1 0] [rxI 1 0] hs⟩

/-- C2 counterexample: after a cancellation the stored indices go stale.
    On [cz(0,1), rx(1) on 2, cz(0,1)] the pass cancels the cz pair; wire 2
    still holds the tag "rx1", but the returned sequence has length 1, so
    no instruction sits at index 1 and the tag names no current position
    (the rx instruction now lives at index 0, whose tag would be "rx0"). -/
theorem claim_C2_counterexample :
    removeDoubleCZ 3 [czI 0 1, rxI 1 2, czI 0 1] =
      some ([rxI 1 2], [[""], [""], ["", "rx1"]]) ∧
    ¬ wiresWF [rxI 1 2] [[""], [""], ["", "rx1"]] := by
  constructor
  · rw [removeDoubleCZ]
    rw [@rdczLoop_pushcz1 [czI 0 1, rxI 1 2, czI 0 1] (List.replicate 3 [""]) 0
      (czI 0 1) 0 1 [""] "" [["", "cz0"], ["", "cz0"], [""]]
      (by decide) (by decide) (by decide) (by decide) (by decide) (by decide)
      (by decide) (by decide) (by decide)]
    rw [show ((0:Int) + 1 = 1) from by decide]
    rw [@rdczLoop_push [czI 0 1, rxI 1 2, czI 0 1]
      [["", "cz0"], ["", "cz0"], [""]] 1 (rxI 1 2) 2 [""]
      [["", "cz0"], ["", "cz0"], ["", "rx1"]]
      (by decide) (by decide) (by decide) (by decide) (by decide) (by decide)]
    rw [show ((1:Int) + 1 = 2) from by decide]
    rw [@rdczLoop_cancel [czI 0 1, rxI 1 2, czI 0 1]
      [["", "cz0"], ["", "cz0"], ["", "rx1"]] 2 (czI 0 1) 0 1
      ["", "cz0"] ["", "cz0"] [""] ["", "cz0"] [""] "cz0" "cz0"
      [czI 0 1, rxI 1 2] [rxI 1 2] 0 [[""], [""], ["", "rx1"]]
      (by decide) (by decide) (by decide) (by decide) (by decide) (by decide)
      (by decide) (by decide) (by decide) (by decide) (by decide) (by decide)
      (by decide) (by decide) (by decide) (by decide) (by decide) (by decide)]
    rw [show ((2:Int) - 1 = 1) from by decide]
    rw [rdczLoop_exit (by decide)]
  · intro hwf
    have h := hwf ["", "rx1"] (by simp) "rx1" (by simp)
    rcases h with h | ⟨k, hk, he⟩
    · exact absurd h (by decide)
    · have hk0 : k = 0 := by
        simp only [List.length_singleton] at hk
        omega
      subst hk0
      have hget : ([rxI 1 2].get ⟨0, hk⟩) = rxI 1 2 := rfl
      rw [hget] at he
      exact absurd he (by decide)

/-- C2 (amended): if the Adjacent-Cancellation pass performed no deletion
    (the returned sequence has the same length as the input), the returned
    sequence is the input and every non-bottom wire-history entry is the
    tag name+str(k) of the instruction at position k of the returned
    sequence; cancellations (as in the counterexample) void this. -/
theorem claim_C2_indices_valid_without_cancellation (numQubits : Nat)
    (data out : List Instruction) (wires2 : List (List String))
    (h : removeDoubleCZ numQubits data = some (out, wires2))
    (hlen : out.length = data.length) :
    out = data ∧ wiresWF out wires2 := by
  have h0 : wiresWF data (List.replicate numQubits [""]) := by
    intro w hw e he
    have hw2 : w = [""] := List.eq_of_mem_replicate hw
    subst hw2
    simp only [List.mem_singleton] at he
    exact Or.inl he
  rw [removeDoubleCZ] at h
  obtain ⟨h1, h2⟩ := rdczLoop_nocancel_aux ((4 * (data.length : Int)).toNat)
    data (List.replicate numQubits [""]) 0 out wires2 (by omega) h hlen
    (by omega) h0
  subst h1
  exact ⟨rfl, h2⟩

/-- Witness for C2 at a cancellation-free run. -/
theorem claim_C2_indices_valid_witness :
    removeDoubleCZ 1 [rxI 5 0] = some ([rxI 5 0], [["", "rx0"]]) ∧
    ([rxI 5 0] = [rxI 5 0] ∧ wiresWF [rxI 5 0] [["", "rx0"]]) := by
  have hrd : removeDoubleCZ 1 [rxI 5 0] = some ([rxI 5 0], [["", "rx0"]]) := by
    rw [removeDoubleCZ]
    rw [@rdczLoop_push [rxI 5 0] (List.replicate 1 [""]) 0
      (rxI 5 0) 0 [""] [["", "rx0"]]
      (by decide) (by decide) (by decide) (by decide) (by decide) (by decide)]
    rw [show ((0:Int) + 1 = 1) from by decide]
    rw [rdczLoop_exit (by decide)]
  exact ⟨hrd, claim_C2_indices_valid_without_cancellation 1 [rxI 5 0]
    [rxI 5 0] [["", "rx0"]] hrd rfl⟩

/-- C8: a pair of adjacent cz instructions on the same qubit pair cancels
    completely: for any qubit count and distinct in-range qubits a, b the
    driver returns the empty sequence on [cz(a,b), cz(a,b)]. -/
theorem claim_C8_adjacent_pair_cancels (numQubits a b : Nat)
    (hab : a ≠ b) (ha : a < numQubits) (hb : b < numQubits) :
    simplify numQubits [czI a b, czI a b] = some [] := by
  have hz : removeZeroRotations [czI a b, czI a b] = [czI a b, czI a b] := by
    rw [removeZeroRotations_eq]
    have hk : keepIns (czI a b) = true := rfl
    simp [List.filter, hk]
  have htag : ([""] : List String) ++ [pushTag ("cz") 0] = ["", "cz0"] := by
    decide
  have hpz1 : pushCZ (List.replicate numQubits [""]) a b 0 =
      some (((List.replicate numQubits [""]).set a ["", "cz0"]).set b
        ["", "cz0"]) := by
    simp only [pushCZ, List.getElem?_replicate, if_pos ha, htag,
      List.getElem?_set_ne hab, if_pos hb]
  have hg0 : pyGet [czI a b, czI a b] 0 = some (czI a b) := by
    simp [pyGet, pyIdx]
  have hg1 : pyGet [czI a b, czI a b] 1 = some (czI a b) := by
    simp [pyGet, pyIdx]
  have hrd : removeDoubleCZ numQubits [czI a b, czI a b] =
      some ([], ((((List.replicate numQubits [""]).set a ["", "cz0"]).set b
        ["", "cz0"]).set a [""]).set b [""]) := by
    rw [removeDoubleCZ]
    rw [@rdczLoop_pushcz1 [czI a b, czI a b] (List.replicate numQubits [""]) 0
      (czI a b) a b [""] ""
      (((List.replicate numQubits [""]).set a ["", "cz0"]).set b ["", "cz0"])
      (by simp) hg0 rfl rfl rfl
      (by simp [List.getElem?_replicate, ha]) rfl (by decide) hpz1]
    rw [show ((0:Int) + 1 = 1) from by decide]
    rw [@rdczLoop_cancel [czI a b, czI a b]
      (((List.replicate numQubits [""]).set a ["", "cz0"]).set b ["", "cz0"]) 1
      (czI a b) a b ["", "cz0"] ["", "cz0"] [""] ["", "cz0"] [""] "cz0" "cz0"
      [czI a b] [] 0
      (((((List.replicate numQubits [""]).set a ["", "cz0"]).set b
        ["", "cz0"]).set a [""]).set b [""])
      (by simp) hg1 rfl rfl rfl
      (by simp [List.getElem?_set_ne (Ne.symm hab), List.getElem?_set_self,
        List.length_replicate, ha])
      rfl (by decide)
      (by simp [List.getElem?_set_self, List.length_set, List.length_replicate, hb])
      rfl (by decide)
      (by simp [pyPop, pyIdx, List.eraseIdx])
      (by decide)
      (by simp [pyPop, pyIdx, List.eraseIdx])
      rfl
      (by simp [List.getElem?_set_ne hab, List.getElem?_set_self,
        List.length_set, List.length_replicate, hb])
      rfl rfl]
    rw [show ((1:Int) - 1 = 0) from by decide]
    rw [rdczLoop_exit (by simp)]
  have hW2 : ((((List.replicate numQubits [""]).set a ["", "cz0"]).set b
      ["", "cz0"]).set a [""]).set b [""] =
      ((List.replicate numQubits [""]).set a [""]).set b [""] := by
    rw [List.set_comm ["", "cz0"] [""] _ (Ne.symm hab)]
    rw [List.set_set, List.set_set]
  have hall : ∀ w ∈ ((List.replicate numQubits [""]).set a [""]).set b [""],
      w = [""] := by
    intro w hw
    rcases List.mem_or_eq_of_mem_set hw with hw2 | hw2
    · rcases List.mem_or_eq_of_mem_set hw2 with hw3 | hw3
      · exact List.eq_of_mem_replicate hw3
      · exact hw3
    · exact hw2
  have hcomb : combineRotations []
      (((((List.replicate numQubits [""]).set a ["", "cz0"]).set b
        ["", "cz0"]).set a [""]).set b [""]) = some [] := by
    rw [hW2, combineRotations, crWires_bottom _ _ _ hall]
    decide
  simp only [simplify, hz, hrd, hcomb]

/-- Witness for C8 at two qubits. -/
theorem claim_C8_adjacent_pair_cancels_witness :
    simplify 2 [czI 0 1, czI 0 1] = some [] :=
  claim_C8_adjacent_pair_cancels 2 0 1 (by decide) (by decide) (by decide)

/-- Fusion of three same-kind rotations on one qubit, computed from the
    driver: the first fusion replaces data[1] by theta1+theta2; if that sum
    rounds to 2*PI both wire entries are dropped and the third rotation is
    returned alone; otherwise the second fusion replaces data[2] by the
    total; if the total rounds to 2*PI the loop backs up to i = -1 on the
    emptied wire, reads the bottom "" markers on both sides and crashes in
    int(""); otherwise the two fused-away entries are popped and the single
    total rotation remains. -/
theorem simplify_three_same_rotations (numQubits q : Nat) (r : String)
    (t1 t2 t3 : ℚ) (hrx : r = "rx" ∨ r = "rz") (hqlt : q < numQubits)
    (ht1 : t1 ≠ 0 ∧ t1 ≠ twoPI) (ht2 : t2 ≠ 0 ∧ t2 ≠ twoPI)
    (ht3 : t3 ≠ 0 ∧ t3 ≠ twoPI) :
    simplify numQubits [⟨r, [t1], [q]⟩, ⟨r, [t2], [q]⟩, ⟨r, [t3], [q]⟩] =
      (if roundTo2 (t1 + t2) = roundTo2 twoPI then some [⟨r, [t3], [q]⟩]
       else if roundTo2 (t1 + t2 + t3) = roundTo2 twoPI then none
       else some [⟨r, [t1 + t2 + t3], [q]⟩]) := by
  have hrlen : r.data.length = 2 := by rcases hrx with rfl | rfl <;> rfl
  have hrcz : ¬ r = "cz" := by rcases hrx with rfl | rfl <;> decide
  have hz : removeZeroRotations [⟨r, [t1], [q]⟩, ⟨r, [t2], [q]⟩, ⟨r, [t3], [q]⟩] =
      [⟨r, [t1], [q]⟩, ⟨r, [t2], [q]⟩, ⟨r, [t3], [q]⟩] := by
    rw [removeZeroRotations_eq]
    have k1 : keepIns ⟨r, [t1], [q]⟩ = true := by simp [keepIns, ht1.1, ht1.2]
    have k2 : keepIns ⟨r, [t2], [q]⟩ = true := by simp [keepIns, ht2.1, ht2.2]
    have k3 : keepIns ⟨r, [t3], [q]⟩ = true := by simp [keepIns, ht3.1, ht3.2]
    simp [List.filter, k1, k2, k3]
  have hrd : removeDoubleCZ numQubits
      [⟨r, [t1], [q]⟩, ⟨r, [t2], [q]⟩, ⟨r, [t3], [q]⟩] =
      some ([⟨r, [t1], [q]⟩, ⟨r, [t2], [q]⟩, ⟨r, [t3], [q]⟩],
        (List.replicate numQubits [""]).set q
          ["", r ++ "0", r ++ "1", r ++ "2"]) := by
    rw [removeDoubleCZ]
    rw [@rdczLoop_push [⟨r, [t1], [q]⟩, ⟨r, [t2], [q]⟩, ⟨r, [t3], [q]⟩]
      (List.replicate numQubits [""]) 0 ⟨r, [t1], [q]⟩ q [""]
      ((List.replicate numQubits [""]).set q ["", r ++ "0"])
      (by simp) rfl hrcz rfl
      (by simp [List.getElem?_replicate, hqlt]) rfl]
    rw [show ((0:Int) + 1 = 1) from by decide]
    rw [@rdczLoop_push [⟨r, [t1], [q]⟩, ⟨r, [t2], [q]⟩, ⟨r, [t3], [q]⟩]
      ((List.replicate numQubits [""]).set q ["", r ++ "0"]) 1
      ⟨r, [t2], [q]⟩ q ["", r ++ "0"]
      ((List.replicate numQubits [""]).set q ["", r ++ "0", r ++ "1"])
      (by simp) rfl hrcz rfl
      (by simp [List.getElem?_set_self, List.length_replicate, hqlt])
      (by rw [List.set_set]; rfl)]
    rw [show ((1:Int) + 1 = 2) from by decide]
    rw [@rdczLoop_push [⟨r, [t1], [q]⟩, ⟨r, [t2], [q]⟩, ⟨r, [t3], [q]⟩]
      ((List.replicate numQubits [""]).set q ["", r ++ "0", r ++ "1"]) 2
      ⟨r, [t3], [q]⟩ q ["", r ++ "0", r ++ "1"]
      ((List.replicate numQubits [""]).set q
        ["", r ++ "0", r ++ "1", r ++ "2"])
      (by simp) rfl hrcz rfl
      (by simp [List.getElem?_set_self, List.length_replicate, hqlt])
      (by rw [List.set_set]; rfl)]
    rw [show ((2:Int) + 1 = 3) from by decide]
    rw [rdczLoop_exit (by simp)]
  by_cases hc1 : roundTo2 (t1 + t2) = roundTo2 twoPI
  · rw [if_pos hc1]
    have hwl : crWireLoop [⟨r, [t1], [q]⟩, ⟨r, [t2], [q]⟩, ⟨r, [t3], [q]⟩]
        ["", r ++ "0", r ++ "1", r ++ "2"] [] 0 =
        some ([⟨r, [t1], [q]⟩, ⟨r, [t1 + t2], [q]⟩, ⟨r, [t3], [q]⟩],
          ["", r ++ "2"], [0, 1]) := by
      rw [@crWireLoop_skip [⟨r, [t1], [q]⟩, ⟨r, [t2], [q]⟩, ⟨r, [t3], [q]⟩]
        ["", r ++ "0", r ++ "1", r ++ "2"] [] 0 "" (r ++ "0")
        (by norm_num) rfl rfl
        (by rw [strTake2_append hrlen]; rcases hrx with rfl | rfl <;> decide)]
      rw [show ((0:Int) + 1 = 1) from by decide]
      rw [@crWireLoop_fuse2pi [⟨r, [t1], [q]⟩, ⟨r, [t2], [q]⟩, ⟨r, [t3], [q]⟩]
        ["", r ++ "0", r ++ "1", r ++ "2"] [] 1 (r ++ "0") (r ++ "1") 0 1
        ⟨r, [t1], [q]⟩ ⟨r, [t2], [q]⟩ t1 t2
        [⟨r, [t1], [q]⟩, ⟨r, [t1 + t2], [q]⟩, ⟨r, [t3], [q]⟩]
        ["", r ++ "1", r ++ "2"] ["", r ++ "2"] [0, 1]
        (by norm_num) rfl rfl
        (by rw [strTake2_append hrlen, strTake2_append hrlen])
        (by rw [strDrop2_append hrlen]; decide)
        (by rw [strDrop2_append hrlen]; decide)
        rfl rfl rfl rfl rfl rfl hc1 rfl rfl]
      rw [show ((1:Int) - 2 = -1) from by decide]
      rw [@crWireLoop_skip [⟨r, [t1], [q]⟩, ⟨r, [t1 + t2], [q]⟩, ⟨r, [t3], [q]⟩]
        ["", r ++ "2"] [0, 1] (-1) (r ++ "2") ""
        (by norm_num) rfl rfl
        (by rw [strTake2_append hrlen]; rcases hrx with rfl | rfl <;> decide)]
      rw [show ((-1:Int) + 1 = 0) from by decide]
      rw [@crWireLoop_skip [⟨r, [t1], [q]⟩, ⟨r, [t1 + t2], [q]⟩, ⟨r, [t3], [q]⟩]
        ["", r ++ "2"] [0, 1] 0 "" (r ++ "2")
        (by norm_num) rfl rfl
        (by rw [strTake2_append hrlen]; rcases hrx with rfl | rfl <;> decide)]
      rw [show ((0:Int) + 1 = 1) from by decide]
      rw [crWireLoop_exit (by norm_num)]
    have hcw : crWires [⟨r, [t1], [q]⟩, ⟨r, [t2], [q]⟩, ⟨r, [t3], [q]⟩]
        ((List.replicate numQubits [""]).set q
          ["", r ++ "0", r ++ "1", r ++ "2"]) [] =
        some ([⟨r, [t1], [q]⟩, ⟨r, [t1 + t2], [q]⟩, ⟨r, [t3], [q]⟩], [0, 1]) := by
      rw [crWires_set_bottom numQubits q _ _ _ hqlt, hwl]
      exact crWires_bottom _ _ _ (fun w hw => List.eq_of_mem_replicate hw)
    have hcb : combineRotations
        [⟨r, [t1], [q]⟩, ⟨r, [t2], [q]⟩, ⟨r, [t3], [q]⟩]
        ((List.replicate numQubits [""]).set q
          ["", r ++ "0", r ++ "1", r ++ "2"]) = some [⟨r, [t3], [q]⟩] := by
      rw [combineRotations, hcw]
      rfl
    simp only [simplify, hz, hrd, hcb]
  · rw [if_neg hc1]
    by_cases hc2 : roundTo2 (t1 + t2 + t3) = roundTo2 twoPI
    · rw [if_pos hc2]
      have hwl : crWireLoop [⟨r, [t1], [q]⟩, ⟨r, [t2], [q]⟩, ⟨r, [t3], [q]⟩]
          ["", r ++ "0", r ++ "1", r ++ "2"] [] 0 = none := by
        rw [@crWireLoop_skip [⟨r, [t1], [q]⟩, ⟨r, [t2], [q]⟩, ⟨r, [t3], [q]⟩]
          ["", r ++ "0", r ++ "1", r ++ "2"] [] 0 "" (r ++ "0")
          (by norm_num) rfl rfl
          (by rw [strTake2_append hrlen]; rcases hrx with rfl | rfl <;> decide)]
        rw [show ((0:Int) + 1 = 1) from by decide]
        rw [@crWireLoop_fuse [⟨r, [t1], [q]⟩, ⟨r, [t2], [q]⟩, ⟨r, [t3], [q]⟩]
          ["", r ++ "0", r ++ "1", r ++ "2"] [] 1 (r ++ "0") (r ++ "1") 0 1
          ⟨r, [t1], [q]⟩ ⟨r, [t2], [q]⟩ t1 t2
          [⟨r, [t1], [q]⟩, ⟨r, [t1 + t2], [q]⟩, ⟨r, [t3], [q]⟩]
          ["", r ++ "1", r ++ "2"] [0]
          (by norm_num) rfl rfl
          (by rw [strTake2_append hrlen, strTake2_append hrlen])
          (by rw [strDrop2_append hrlen]; decide)
          (by rw [strDrop2_append hrlen]; decide)
          rfl rfl rfl rfl rfl rfl hc1 rfl]
        rw [@crWireLoop_fuse2pi
          [⟨r, [t1], [q]⟩, ⟨r, [t1 + t2], [q]⟩, ⟨r, [t3], [q]⟩]
          ["", r ++ "1", r ++ "2"] [0] 1 (r ++ "1") (r ++ "2") 1 2
          ⟨r, [t1 + t2], [q]⟩ ⟨r, [t3], [q]⟩ (t1 + t2) t3
          [⟨r, [t1], [q]⟩, ⟨r, [t1 + t2], [q]⟩, ⟨r, [t1 + t2 + t3], [q]⟩]
          ["", r ++ "2"] [""] [0, 1, 2]
          (by norm_num) rfl rfl
          (by rw [strTake2_append hrlen, strTake2_append hrlen])
          (by rw [strDrop2_append hrlen]; decide)
          (by rw [strDrop2_append hrlen]; decide)
          rfl rfl rfl rfl rfl rfl hc2 rfl rfl]
        rw [show ((1:Int) - 2 = -1) from by decide]
        rw [@crWireLoop_parsefail
          [⟨r, [t1], [q]⟩, ⟨r, [t1 + t2], [q]⟩, ⟨r, [t1 + t2 + t3], [q]⟩]
          [""] [0, 1, 2] (-1) "" ""
          (by norm_num) (by decide) (by decide) rfl (by decide) (by decide)]
      have hcw : crWires [⟨r, [t1], [q]⟩, ⟨r, [t2], [q]⟩, ⟨r, [t3], [q]⟩]
          ((List.replicate numQubits [""]).set q
            ["", r ++ "0", r ++ "1", r ++ "2"]) [] = none := by
        rw [crWires_set_bottom numQubits q _ _ _ hqlt, hwl]
      have hcb : combineRotations
          [⟨r, [t1], [q]⟩, ⟨r, [t2], [q]⟩, ⟨r, [t3], [q]⟩]
          ((List.replicate numQubits [""]).set q
            ["", r ++ "0", r ++ "1", r ++ "2"]) = none := by
        rw [combineRotations, hcw]
      simp only [simplify, hz, hrd, hcb]
    · rw [if_neg hc2]
      have hwl : crWireLoop [⟨r, [t1], [q]⟩, ⟨r, [t2], [q]⟩, ⟨r, [t3], [q]⟩]
          ["", r ++ "0", r ++ "1", r ++ "2"] [] 0 =
          some ([⟨r, [t1], [q]⟩, ⟨r, [t1 + t2], [q]⟩, ⟨r, [t1 + t2 + t3], [q]⟩],
            ["", r ++ "2"], [0, 1]) := by
        rw [@crWireLoop_skip [⟨r, [t1], [q]⟩, ⟨r, [t2], [q]⟩, ⟨r, [t3], [q]⟩]
          ["", r ++ "0", r ++ "1", r ++ "2"] [] 0 "" (r ++ "0")
          (by norm_num) rfl rfl
          (by rw [strTake2_append hrlen]; rcases hrx with rfl | rfl <;> decide)]
        rw [show ((0:Int) + 1 = 1) from by decide]
        rw [@crWireLoop_fuse [⟨r, [t1], [q]⟩, ⟨r, [t2], [q]⟩, ⟨r, [t3], [q]⟩]
          ["", r ++ "0", r ++ "1", r ++ "2"] [] 1 (r ++ "0") (r ++ "1") 0 1
          ⟨r, [t1], [q]⟩ ⟨r, [t2], [q]⟩ t1 t2
          [⟨r, [t1], [q]⟩, ⟨r, [t1 + t2], [q]⟩, ⟨r, [t3], [q]⟩]
          ["", r ++ "1", r ++ "2"] [0]
          (by norm_num) rfl rfl
          (by rw [strTake2_append hrlen, strTake2_append hrlen])
          (by rw [strDrop2_append hrlen]; decide)
          (by rw [strDrop2_append hrlen]; decide)
          rfl rfl rfl rfl rfl rfl hc1 rfl]
        rw [@crWireLoop_fuse
          [⟨r, [t1], [q]⟩, ⟨r, [t1 + t2], [q]⟩, ⟨r, [t3], [q]⟩]
          ["", r ++ "1", r ++ "2"] [0] 1 (r ++ "1") (r ++ "2") 1 2
          ⟨r, [t1 + t2], [q]⟩ ⟨r, [t3], [q]⟩ (t1 + t2) t3
          [⟨r, [t1], [q]⟩, ⟨r, [t1 + t2], [q]⟩, ⟨r, [t1 + t2 + t3], [q]⟩]
          ["", r ++ "2"] [0, 1]
          (by norm_num) rfl rfl
          (by rw [strTake2_append hrlen, strTake2_append hrlen])
          (by rw [strDrop2_append hrlen]; decide)
          (by rw [strDrop2_append hrlen]; decide)
          rfl rfl rfl rfl rfl rfl hc2 rfl]
        rw [crWireLoop_exit (by norm_num)]
      have hcw : crWires [⟨r, [t1], [q]⟩, ⟨r, [t2], [q]⟩, ⟨r, [t3], [q]⟩]
          ((List.replicate numQubits [""]).set q
            ["", r ++ "0", r ++ "1", r ++ "2"]) [] =
          some ([⟨r, [t1], [q]⟩, ⟨r, [t1 + t2], [q]⟩, ⟨r, [t1 + t2 + t3], [q]⟩],
            [0, 1]) := by
        rw [crWires_set_bottom numQubits q _ _ _ hqlt, hwl]
        exact crWires_bottom _ _ _ (fun w hw => List.eq_of_mem_replicate hw)
      have hcb : combineRotations
          [⟨r, [t1], [q]⟩, ⟨r, [t2], [q]⟩, ⟨r, [t3], [q]⟩]
          ((List.replicate numQubits [""]).set q
            ["", r ++ "0", r ++ "1", r ++ "2"]) =
          some [⟨r, [t1 + t2 + t3], [q]⟩] := by
        rw [combineRotations, hcw]
        rfl
      simp only [simplify, hz, hrd, hcb]

/-- C4 counterexample: the fused angle is the plain sum, not the sum
    reduced modulo 2*PI.  Three rx rotations by 3 on one qubit fuse to a
    single rx by 9, and 9 is not its own reduction modulo one full turn
    (9 - 2*PI*floor(9/(2*PI)) = 9 - 2*PI), refuting the claimed
    "equivalent angle modulo a full turn". -/
theorem claim_C4_counterexample :
    simplify 1 [rxI 3 0, rxI 3 0, rxI 3 0] =
      some [⟨"rx", [3 + 3 + 3], [0]⟩] ∧
    modTurn (3 + 3 + 3) ≠ 3 + 3 + 3 := by
  constructor
  · have h := simplify_three_same_rotations 1 0 ("rx") 3 3 3
      (Or.inl rfl) (by decide) (by decide) (by decide) (by decide)
    rw [if_neg (by decide), if_neg (by decide)] at h
    exact h
  · decide

/-- C4 (amended): fusing three same-kind rotations on one qubit keeps the
    plain sum of the angles (no modular reduction): if neither partial
    2*PI check fires the result is one rotation by theta1+theta2+theta3;
    if the first two angles round to 2*PI those two are removed and the
    third survives; if instead the total rounds to 2*PI the pass crashes. -/
theorem claim_C4_fused_angle_is_plain_sum (numQubits q : Nat) (r : String)
    (t1 t2 t3 : ℚ) (hrx : r = "rx" ∨ r = "rz") (hqlt : q < numQubits)
    (ht1 : t1 ≠ 0 ∧ t1 ≠ twoPI) (ht2 : t2 ≠ 0 ∧ t2 ≠ twoPI)
    (ht3 : t3 ≠ 0 ∧ t3 ≠ twoPI) :
    simplify numQubits [⟨r, [t1], [q]⟩, ⟨r, [t2], [q]⟩, ⟨r, [t3], [q]⟩] =
      (if roundTo2 (t1 + t2) = roundTo2 twoPI then some [⟨r, [t3], [q]⟩]
       else if roundTo2 (t1 + t2 + t3) = roundTo2 twoPI then none
       else some [⟨r, [t1 + t2 + t3], [q]⟩]) :=
  simplify_three_same_rotations numQubits q r t1 t2 t3 hrx hqlt ht1 ht2 ht3

/-- Witness for C4 at three rz rotations by 1 on qubit 0 of 1. -/
theorem claim_C4_fused_angle_witness :
    simplify 1 [⟨"rz", [1], [0]⟩, ⟨"rz", [1], [0]⟩, ⟨"rz", [1], [0]⟩] =
      (if roundTo2 (1 + 1) = roundTo2 twoPI then some [⟨"rz", [1], [0]⟩]
       else if roundTo2 (1 + 1 + 1) = roundTo2 twoPI then none
       else some [⟨"rz", [1 + 1 + 1], [0]⟩]) :=
  claim_C4_fused_angle_is_plain_sum 1 0 ("rz") 1 1 1 (Or.inr rfl) (by decide)
    (by decide) (by decide) (by decide)

end ClaimTheorems
